import Mathlib

set_option linter.unusedVariables false

/-! Shallow embedding of the epui layout, compositing, scheduling and chart
rendering core (src/util.py, src/ui.py, src/charts.py).  Geometry uses exact
rationals in place of Python floats; Python `int()` truncation is modelled by
`pyInt`; canvases are total pixel maps over integer coordinates together with
an explicit width and height.  Functions that can raise in Python (index
errors, type errors on malformed size values, division by zero) return
`Option` and yield `none` on the raising inputs. -/

/-- Python `int()` applied to a rational: truncation toward zero. -/
def pyInt (q : ℚ) : ℤ := if q < 0 then -(Int.floor (-q)) else Int.floor q

/-- util.is_inside (src/util.py): componentwise `child ≤ parent`. -/
def is_inside (parent child : ℚ × ℚ) : Prop :=
  child.1 ≤ parent.1 ∧ child.2 ≤ parent.2

instance (p c : ℚ × ℚ) : Decidable (is_inside p c) := by
  unfold is_inside; infer_instance

/-- util.is_strictly_inside (src/util.py), as used by `overlay` on an integer
pixel position against a canvas size: only the upper bounds are checked. -/
def is_strictly_inside (parent : ℕ × ℕ) (child : ℤ × ℤ) : Prop :=
  child.1 < (parent.1 : ℤ) ∧ child.2 < (parent.2 : ℤ)

instance (p : ℕ × ℕ) (c : ℤ × ℤ) : Decidable (is_strictly_inside p c) := by
  unfold is_strictly_inside; infer_instance

/-- util.subtract. -/
def subtract (vector option : ℚ × ℚ) : ℚ × ℚ := (vector.1 - option.1, vector.2 - option.2)

/-- util.plus. -/
def plus (vector option : ℚ × ℚ) : ℚ × ℚ := (vector.1 + option.1, vector.2 + option.2)

/-- util.multiply. -/
def multiply (vector : ℚ × ℚ) (factor : ℚ) : ℚ × ℚ := (vector.1 * factor, vector.2 * factor)

/-- util.is_positive: both components strictly positive. -/
def is_positive (vector : ℚ × ℚ) : Prop := 0 < vector.1 ∧ 0 < vector.2

instance (v : ℚ × ℚ) : Decidable (is_positive v) := by
  unfold is_positive; infer_instance

/-- util.int_vector: componentwise Python `int()`. -/
def int_vector (vector : ℚ × ℚ) : ℤ × ℤ := (pyInt vector.1, pyInt vector.2)

/-- resources.COLOR_TRANSPARENT, the transparency sentinel. -/
def COLOR_TRANSPARENT : ℕ := 254

/-! ### Measurement model (src/ui.py) -/

/-- One axis of a preferred size: `ViewSize.MATCH_PARENT`, `ViewSize.WRAP_CONTENT`
or a concrete number. -/
inductive SizeSpec where
  | matchParent : SizeSpec
  | wrapContent : SizeSpec
  | fixed : ℚ → SizeSpec
deriving DecidableEq

/-- A preferred size is either a bare scalar (a percentage, as produced by
`ViewMeasurement.default` with a float `size`) or a pair of per-axis specs. -/
inductive PrefSize where
  | scalar : ℚ → PrefSize
  | pair : SizeSpec → SizeSpec → PrefSize
deriving DecidableEq

/-- Margins in the source order `[top, right, bottom, left]`. -/
structure Margin where
  top : ℚ
  right : ℚ
  bottom : ℚ
  left : ℚ
deriving DecidableEq

/-- The data of a child view that `Group.measure` / `VGroup.measure` consults:
its preferred position, preferred size and margins, plus the value its
`content_size()` method reports. -/
structure ChildView where
  position : ℚ × ℚ
  size : PrefSize
  margin : Margin
  contentSize : ℚ × ℚ
deriving DecidableEq

/-- A fully resolved `ViewMeasurement` as written by the measure pass. -/
structure ViewMeasurement where
  position : ℚ × ℚ
  size : ℚ × ℚ
  margin : Margin
deriving DecidableEq

/-- One axis of get_effective_size (src/ui.py lines 382-392). -/
def effective_component (s : SizeSpec) (parent content : ℚ) : ℚ :=
  match s with
  | .matchParent => parent
  | .wrapContent => content
  | .fixed v => v

/-- get_effective_size (src/ui.py lines 382-392).  A scalar (percentage)
preferred size is not subscriptable in the source and raises `TypeError`,
hence `none`. -/
def get_effective_size (child : ChildView) (parent_size : ℚ × ℚ) : Option (ℚ × ℚ) :=
  match child.size with
  | .scalar _ => none
  | .pair w h =>
      some (effective_component w parent_size.1 child.contentSize.1,
            effective_component h parent_size.2 child.contentSize.2)

/-- The per-child body of Group.measure (src/ui.py lines 241-261). -/
def group_measure_child (parentSize : ℚ × ℚ) (child : ChildView) : Option ViewMeasurement :=
  match get_effective_size child parentSize with
  | none => none
  | some size0 =>
    let m := child.margin
    let position := plus child.position (m.left, m.top)
    let remaining_space := subtract parentSize position
    if ¬ is_positive remaining_space then
      -- there's no room for the child
      let position2 := subtract parentSize (plus size0 (m.right, m.bottom))
      if ¬ is_positive position2 then
        let position3 : ℚ × ℚ := (m.left, m.top)
        let s1 := if size0.1 > parentSize.1 then (parentSize.1, size0.2) else size0
        let s2 := if s1.2 > parentSize.2 then (s1.1, parentSize.2) else s1
        some ⟨position3, s2, m⟩
      else
        some ⟨position2, size0, m⟩
    else if ¬ is_inside remaining_space size0 then
      -- the child can not fit the group
      some ⟨position, subtract remaining_space (m.right, m.bottom), m⟩
    else
      some ⟨position, size0, m⟩

/-- Maps `f` over a list, failing as soon as `f` fails (the source loop raises
on the first bad element). -/
def map_all (f : α → Option β) : List α → Option (List β)
  | [] => some []
  | a :: as =>
    match f a with
    | none => none
    | some b => (map_all f as).map (fun bs => b :: bs)

/-- Group.measure (src/ui.py lines 241-261): every child is measured
independently by `group_measure_child`. -/
def group_measure (parentSize : ℚ × ℚ) (children : List ChildView) :
    Option (List ViewMeasurement) :=
  map_all (group_measure_child parentSize) children

/-- ViewAlignmentHorizontal (src/ui.py). -/
inductive ViewAlignmentHorizontal where
  | LEFT : ViewAlignmentHorizontal
  | CENTER : ViewAlignmentHorizontal
  | RIGHT : ViewAlignmentHorizontal
deriving DecidableEq

/-- Size resolution at the head of VGroup.measure (src/ui.py lines 292-298):
a bare float is a percentage of the group's height; otherwise
get_effective_size applies (always on a pair, hence total here). -/
def vgroup_resolve_size (groupSize : ℚ × ℚ) (child : ChildView) : ℚ × ℚ :=
  match child.size with
  | .scalar s => (groupSize.1, groupSize.2 * s)
  | .pair w h =>
      (effective_component w groupSize.1 child.contentSize.1,
       effective_component h groupSize.2 child.contentSize.2)

/-- The per-child body of VGroup.measure (src/ui.py lines 291-318), given the
bottom edge (position + size + bottom margin) of the previous child. -/
def vgroup_measure_child (groupSize : ℚ × ℚ) (alignment : ViewAlignmentHorizontal)
    (last_measure_bottom : ℚ) (child : ChildView) : ViewMeasurement :=
  let m := child.margin
  let size0 := vgroup_resolve_size groupSize child
  let s1 := if size0.1 + m.right + m.left > groupSize.1 then
      (groupSize.1 - m.right - m.left, size0.2) else size0
  let s2 := if s1.2 + m.top + m.bottom > groupSize.2 - last_measure_bottom then
      (s1.1, groupSize.2 - last_measure_bottom - m.top - m.bottom) else s1
  let position : ℚ × ℚ :=
    match alignment with
    | .LEFT => (m.left, m.top + last_measure_bottom)
    | .RIGHT => (groupSize.1 - s2.1 - m.left, m.top + last_measure_bottom)
    | .CENTER => ((groupSize.1 - s2.1) / 2, m.top + last_measure_bottom)
  ⟨position, s2, m⟩

/-- The loop of VGroup.measure, threading `last_measure_bottom` through the
already appended measurements. -/
def vgroup_measure_go (groupSize : ℚ × ℚ) (alignment : ViewAlignmentHorizontal)
    (last_measure_bottom : ℚ) : List ChildView → List ViewMeasurement
  | [] => []
  | c :: rest =>
    let meas := vgroup_measure_child groupSize alignment last_measure_bottom c
    meas :: vgroup_measure_go groupSize alignment
      (meas.position.2 + meas.size.2 + meas.margin.bottom) rest

/-- VGroup.measure (src/ui.py lines 288-320); the first child sees
`last_measure_bottom = 0`. -/
def vgroup_measure (groupSize : ℚ × ℚ) (alignment : ViewAlignmentHorizontal)
    (children : List ChildView) : List ViewMeasurement :=
  vgroup_measure_go groupSize alignment 0 children

/-! ### Context scheduling (src/ui.py lines 42-65) -/

/-- Observable scheduler state: the pending-request counter, how many redraws
(canvas clear + root draw) have been performed, and how many times the
redraw listener fired.  A registered redraw listener is assumed. -/
structure SchedState where
  requests : ℕ
  redraws : ℕ
  listenerFires : ℕ
deriving DecidableEq

/-- Context.request_redraw (src/ui.py lines 42-46). -/
def request_redraw (s : SchedState) : SchedState :=
  { s with requests := s.requests + 1 }

/-- One iteration of Context.__start_event_loop (src/ui.py lines 50-60).
`arrivals` counts the invalidation requests that land during the debounce
sleep (between the read of `current_requests` and the re-check). -/
def loop_cycle (s : SchedState) (arrivals : ℕ) : SchedState :=
  let current_requests := s.requests
  if 0 < current_requests then
    let after_sleep := s.requests + arrivals
    if current_requests = after_sleep then
      { requests := 0, redraws := s.redraws + 1, listenerFires := s.listenerFires + 1 }
    else
      { s with requests := after_sleep }
  else s

/-! ### Property setters (src/ui.py, src/charts.py).  Each modelled state
carries the fields the class mutates plus the shared context request counter
(`invalidate` = `Context.request_redraw` = increment by one). -/

/-- The mutable state VGroup.set_alignment touches. -/
structure VGroupState where
  alignment : ViewAlignmentHorizontal
  requests : ℕ
deriving DecidableEq

/-- VGroup.set_alignment (src/ui.py lines 274-277). -/
def vgroup_set_alignment (s : VGroupState) (alignment : ViewAlignmentHorizontal) :
    VGroupState :=
  if s.alignment ≠ alignment then
    { alignment := alignment, requests := s.requests + 1 }
  else s

/-- The mutable fields of TextView relevant to its setters. -/
structure TextViewState where
  text : String
  font : String
  font_size : ℚ
  fill : ℤ
  stroke : ℚ
  requests : ℕ
deriving DecidableEq

/-- TextView.set_font_size (src/ui.py lines 462-465). -/
def textview_set_font_size (s : TextViewState) (font_size : ℚ) : TextViewState :=
  if font_size ≠ s.font_size then
    { s with font_size := font_size, requests := s.requests + 1 }
  else s

/-- The mutable fields of Surface. -/
structure SurfaceState where
  fill : ℤ
  stroke : ℤ
  width : ℤ
  radius : ℤ
  requests : ℕ
deriving DecidableEq

/-- Surface.set_fill (src/ui.py lines 582-585). -/
def surface_set_fill (s : SurfaceState) (fill : ℤ) : SurfaceState :=
  if fill ≠ s.fill then
    { s with fill := fill, requests := s.requests + 1 }
  else s

/-! ### Charts data model (src/charts.py) -/

/-- An independent variable is numeric or a categorical label. -/
inductive IVar where
  | num : ℚ → IVar
  | cat : String → IVar
deriving DecidableEq

/-- One data point: (independent, dependent). -/
def ChartTuple : Type := IVar × ℚ

instance : DecidableEq ChartTuple := inferInstanceAs (DecidableEq (IVar × ℚ))

/-- The fields of charts.Axis that the algorithms consult (the presentation
fields `position`/`label` are irrelevant to the claims and omitted). -/
structure Axis where
  enabled : Bool
  min : ℚ
  max : ℚ
deriving DecidableEq

/-- charts.ChartsConfiguration. -/
structure ChartsConfiguration where
  title : String
  x_axis : Axis
  y_axis : Axis
deriving DecidableEq

/-- The mutable fields of TrendChartsView relevant to set_data. -/
structure TrendChartsState where
  data : List ChartTuple
  line_width : ℚ
  line_fill : ℤ
  requests : ℕ
deriving DecidableEq

/-- TrendChartsView.set_data (src/charts.py lines 441-443): note there is no
equality guard, the data is stored and `invalidate` is called
unconditionally. -/
def trendcharts_set_data (s : TrendChartsState) (data : List ChartTuple) :
    TrendChartsState :=
  { s with data := data, requests := s.requests + 1 }

/-- One iteration of the x-bounds loop of update_axis_bounds (src/charts.py
lines 204-205): `min`/`max` against a categorical value raises TypeError. -/
def x_bound_step (acc : ℚ × ℚ) (p : ChartTuple) : Option (ℚ × ℚ) :=
  match p.1 with
  | .num v => some (min acc.1 v, max acc.2 v)
  | .cat _ => none

/-- update_axis_bounds (src/charts.py lines 191-205).  Empty data raises
IndexError at `data[0]` (`none`); a categorical value met while folding the
numeric x bounds raises TypeError inside `min` (`none`).  The y fold mirrors
the source loop which updates `min` and `max` together. -/
def update_axis_bounds (data : List ChartTuple) (y_axis x_axis : Axis) :
    Option (Axis × Axis) :=
  match data with
  | [] => none
  | d0 :: rest =>
    let yb := rest.foldl (fun acc p => (min acc.1 p.2, max acc.2 p.2)) (d0.2, d0.2)
    let y2 : Axis := { y_axis with min := yb.1, max := yb.2 }
    if yb.1 = yb.2 then some (y2, x_axis)
    else
      match d0.1 with
      | .cat _ => some (y2, x_axis)
      | .num v0 =>
        match rest.foldlM x_bound_step (v0, v0) with
        | none => none
        | some b => some (y2, { x_axis with min := b.1, max := b.2 })

/-- The value a chart draw returns: pixel point paired with the source tuple. -/
def DrawResult : Type := List ((ℤ × ℤ) × ChartTuple)

/-- draw_straight_line (src/charts.py lines 208-244).  The first component of
the result is the polyline handed to `canvas.line`, the second the returned
DrawResult.  `none` models the raising paths: `data[0][0]` on empty data in
the non-degenerate case, arithmetic on a categorical value in the numeric
branch, division by a zero `x_len`, and the `len(data) - 1` zero divisor in
the categorical branch. -/
def draw_straight_line (bounds : ℕ × ℕ) (config : ChartsConfiguration)
    (data : List ChartTuple) : Option (List (ℤ × ℤ) × DrawResult) :=
  let x_axis := config.x_axis
  let y_axis := config.y_axis
  let y_len := y_axis.max - y_axis.min
  if y_len = 0 then
    let y_center : ℤ := pyInt ((bounds.2 : ℚ) / 2)
    some ([((0 : ℤ), y_center), ((bounds.1 : ℤ), y_center)],
      data.enum.map (fun p =>
        ((pyInt ((p.1 : ℚ) / (data.length : ℚ) * (bounds.1 : ℚ)), y_center), p.2)))
  else
    match data with
    | [] => none
    | d0 :: _ =>
      match d0.1 with
      | .num _ =>
        let x_len := x_axis.max - x_axis.min
        if x_len = 0 then none
        else
          (map_all (fun (d : ChartTuple) =>
            match d.1 with
            | .num v =>
              some ((pyInt ((v - x_axis.min) / x_len * (bounds.1 : ℚ)),
                     pyInt ((bounds.2 : ℚ) * (y_axis.max - d.2) / y_len)), d)
            | .cat _ => none) data).map
            (fun pts => (pts.map (fun q => q.1), pts))
      | .cat _ =>
        if data.length = 1 then none
        else
          let x_segment : ℚ := (bounds.1 : ℚ) / ((data.length : ℚ) - 1)
          let points := data.enum.map (fun p =>
            ((pyInt ((p.1 : ℚ) * x_segment),
              pyInt ((bounds.2 : ℚ) * (y_axis.max - p.2.2) / y_len)), p.2))
          some (points.map (fun q => q.1), points)

/-- The `pos` argument of draw_bezier_curve.manipulate: start / end / middle
segment. -/
inductive BezPos where
  | s : BezPos
  | e : BezPos
  | m : BezPos
deriving DecidableEq

/-- draw_bezier_curve.manipulate (src/charts.py lines 257-287).  The default
control points follow the 80/20 splits of the source; the helper-slope
adjustment (lines 270-277) involves a real square root, so the adjusted
control points are taken as explicit optional overrides, over which the
endpoint claims quantify. -/
def manipulate (t : ℚ) (p0 p1 : ℚ × ℚ) (pc1_override pc2_override : Option (ℚ × ℚ))
    (pos : BezPos) : ℤ × ℤ :=
  let u := 1 - t
  let pc1 : ℚ × ℚ :=
    match pos with
    | .s => (p0.1 * 0.8 + p1.1 * 0.2, p0.2 * 0.8 + p1.2 * 0.2)
    | .e => (p0.1 * 0.8 + p1.1 * 0.2, p0.2)
    | .m => (p0.1 * 0.8 + p1.1 * 0.2, p0.2)
  let pc2 : ℚ × ℚ :=
    match pos with
    | .s => (p0.1 * 0.2 + p1.1 * 0.8, p1.2)
    | .e => (p1.1 * 0.8 + p0.1 * 0.2, p0.2 * 0.2 + p1.2 * 0.8)
    | .m => (p0.1 * 0.2 + p1.1 * 0.8, p1.2)
  let pc1 := pc1_override.getD pc1
  let pc2 := pc2_override.getD pc2
  let result := multiply p0 (u * u * u)
  let result := plus result (multiply pc1 (3 * u * u * t))
  let result := plus result (multiply pc2 (3 * u * t * t))
  let result := plus result (multiply p1 (t * t * t))
  int_vector result

/-- draw_bezier_curve.map_to_canvas, numeric branch (src/charts.py lines
298-300). -/
def bz_map_to_canvas (config : ChartsConfiguration) (bounds : ℕ × ℕ)
    (point : ℚ × ℚ) : ℚ × ℚ :=
  ((point.1 - config.x_axis.min) / (config.x_axis.max - config.x_axis.min) *
      ((bounds.1 : ℚ) - 20) + 10,
   (config.y_axis.max - point.2) / (config.y_axis.max - config.y_axis.min) *
      ((bounds.2 : ℚ) - 20) + 10)

/-- draw_bezier_curve.map_to_canvas, categorical branch (src/charts.py lines
337-339); the first coordinate of `point` is the data index. -/
def bz_map_cat (config : ChartsConfiguration) (bounds : ℕ × ℕ) (n : ℕ)
    (point : ℚ × ℚ) : ℚ × ℚ :=
  (point.1 / ((n : ℚ) - 1) * ((bounds.1 : ℚ) - 20) + 10,
   (config.y_axis.max - point.2) / (config.y_axis.max - config.y_axis.min) *
      ((bounds.2 : ℚ) - 20) + 10)

/-- draw_bezier_curve (src/charts.py lines 247-375), restricted to what the
function observably returns.  The degenerate y-range case is a full tail call
to draw_straight_line, polyline included.  In the non-degenerate cases the
sampled polyline (lines 370-374) involves real square roots through the
helper slopes and is not modelled (first component `none`); the returned
`points` list is modelled exactly.  Raising paths (`data[0][0]` on empty
data, categorical values in the numeric branch, zero `x_len`, and the
`1 / (len(data) - 1)` zero divisor) give `none`. -/
def draw_bezier_curve (bounds : ℕ × ℕ) (config : ChartsConfiguration)
    (data : List ChartTuple) : Option (Option (List (ℤ × ℤ)) × DrawResult) :=
  if config.y_axis.max = config.y_axis.min then
    (draw_straight_line bounds config data).map (fun r => (some r.1, r.2))
  else
    match data with
    | [] => none
    | d0 :: _ =>
      match d0.1 with
      | .num _ =>
        if config.x_axis.max - config.x_axis.min = 0 then none
        else
          (map_all (fun (d : ChartTuple) =>
            match d.1 with
            | .num v => some (int_vector (bz_map_to_canvas config bounds (v, d.2)), d)
            | .cat _ => none) data).map (fun pts => (none, pts))
      | .cat _ =>
        if data.length = 1 then none
        else
          some (none, data.enum.map (fun p =>
            (int_vector (bz_map_cat config bounds data.length ((p.1 : ℚ), p.2.2)), p.2)))

/-! ### Compositing (src/ui.py lines 408-417) -/

/-- A single-channel raster: explicit dimensions and a total pixel map (reads
and writes outside `[0,w) × [0,h)` are representable but invisible). -/
structure Img where
  w : ℕ
  h : ℕ
  pix : ℤ → ℤ → ℕ

/-- canvas.putpixel: point update of the pixel map. -/
def putpixel (im : Img) (p : ℤ × ℤ) (v : ℕ) : Img :=
  { im with pix := fun a b => if a = p.1 ∧ b = p.2 then v else im.pix a b }

/-- The inner (x) loop of overlay (src/ui.py lines 410-417) over the listed
column indices: on the first destination that fails `is_strictly_inside` the
row is abandoned (`break`) and one warning is logged; otherwise a
non-sentinel source pixel is written through.  The second component counts
warnings. -/
def overlay_row_go (fg : Img) (position : ℤ × ℤ) (y : ℕ) :
    List ℕ → Img → Img × ℕ
  | [], bg => (bg, 0)
  | x :: rest, bg =>
    let b_pos : ℤ × ℤ := ((x : ℤ) + position.1, (y : ℤ) + position.2)
    if is_strictly_inside (bg.w, bg.h) b_pos then
      let pf := fg.pix (x : ℤ) (y : ℤ)
      let bg2 := if pf ≠ COLOR_TRANSPARENT then putpixel bg b_pos pf else bg
      overlay_row_go fg position y rest bg2
    else (bg, 1)

/-- The outer (y) loop of overlay over the listed row indices. -/
def overlay_go (fg : Img) (position : ℤ × ℤ) :
    List ℕ → Img → Img × ℕ
  | [], bg => (bg, 0)
  | y :: rest, bg =>
    let r := overlay_row_go fg position y (List.range fg.w) bg
    let r2 := overlay_go fg position rest r.1
    (r2.1, r.2 + r2.2)

/-- overlay (src/ui.py lines 408-417): composite `fg` onto `bg` at
`position`, returning the updated background and the number of warnings. -/
def overlay (background foreground : Img) (position : ℤ × ℤ) : Img × ℕ :=
  overlay_go foreground position (List.range foreground.h) background

/-! ### Spec-side definitions (for refinement statements) -/

/-- The two-tier space-starvation policy as the claim states it: the child's
preferred position plus leading margins leaving no positive remaining space
triggers a reflow flush against the far edge (parent size minus resolved size
and trailing margins); if that is still not positive on some axis the child
sits at its leading margins with each axis of its size clamped (`min`) to the
parent's size.  A fitting position whose resolved size overflows the
remaining space instead clamps the size to the remaining space minus trailing
margins.  `effSize` is the child's resolved size. -/
def starvation_spec (parentSize : ℚ × ℚ) (child : ChildView) (effSize : ℚ × ℚ) :
    ViewMeasurement :=
  let m := child.margin
  let pos : ℚ × ℚ := (child.position.1 + m.left, child.position.2 + m.top)
  let rem : ℚ × ℚ := (parentSize.1 - pos.1, parentSize.2 - pos.2)
  if is_positive rem then
    if is_inside rem effSize then ⟨pos, effSize, m⟩
    else ⟨pos, (rem.1 - m.right, rem.2 - m.bottom), m⟩
  else
    let far : ℚ × ℚ :=
      (parentSize.1 - (effSize.1 + m.right), parentSize.2 - (effSize.2 + m.bottom))
    if is_positive far then ⟨far, effSize, m⟩
    else ⟨(m.left, m.top), (min effSize.1 parentSize.1, min effSize.2 parentSize.2), m⟩

/-- The claim's notion of the exact minimum of a list of values. -/
def exact_min (l : List ℚ) (v : ℚ) : Prop := v ∈ l ∧ ∀ x ∈ l, v ≤ x

/-- The claim's notion of the exact maximum of a list of values. -/
def exact_max (l : List ℚ) (v : ℚ) : Prop := v ∈ l ∧ ∀ x ∈ l, x ≤ v

/-! ### Helper lemmas -/

theorem pyInt_eq_floor_of_nonneg {q : ℚ} (h : 0 ≤ q) : pyInt q = Int.floor q := by
  unfold pyInt
  rw [if_neg (by exact not_lt.mpr h)]

theorem request_redraw_iterate (s : SchedState) (n : ℕ) :
    request_redraw^[n] s = { s with requests := s.requests + n } := by
  induction n with
  | zero => simp
  | succ k ih =>
    rw [Function.iterate_succ_apply', ih]
    simp [request_redraw, Nat.add_assoc]

theorem manipulate_at_zero (p0 p1 : ℚ × ℚ) (o1 o2 : Option (ℚ × ℚ)) (pos : BezPos) :
    manipulate 0 p0 p1 o1 o2 pos = int_vector p0 := by
  simp only [manipulate, multiply, plus, int_vector]
  norm_num

theorem manipulate_at_one (p0 p1 : ℚ × ℚ) (o1 o2 : Option (ℚ × ℚ)) (pos : BezPos) :
    manipulate 1 p0 p1 o1 o2 pos = int_vector p1 := by
  simp only [manipulate, multiply, plus, int_vector]
  norm_num

/-! ### C3: debounced coalescing of invalidation requests -/

/-- C3: starting from an idle scheduler, N ≥ 1 invalidation requests counted at
the poll, with no further arrivals during the debounce sleep, produce exactly
one redraw (with the listener fired) and reset the counter to zero; if any
request arrives during the debounce sleep, the cycle performs no redraw. -/
theorem c3_debounce_coalescing (s : SchedState) (N d : ℕ)
    (h0 : s.requests = 0) (hN : 1 ≤ N) :
    loop_cycle (request_redraw^[N] s) 0 =
      { requests := 0, redraws := s.redraws + 1, listenerFires := s.listenerFires + 1 } ∧
    (0 < d → loop_cycle (request_redraw^[N] s) d =
      { s with requests := N + d }) := by
  rw [request_redraw_iterate, h0]
  constructor
  · simp only [loop_cycle]
    rw [if_pos (by omega), if_pos (by omega)]
  · intro hd
    simp only [loop_cycle]
    rw [if_pos (by omega), if_neg (by omega)]
    norm_num

theorem c3_debounce_coalescing_witness :
    (({ requests := 0, redraws := 0, listenerFires := 0 } : SchedState).requests = 0 ∧ 1 ≤ 3) ∧
    (loop_cycle (request_redraw^[3] { requests := 0, redraws := 0, listenerFires := 0 }) 0 =
       { requests := 0, redraws := 1, listenerFires := 1 } ∧
     (0 < 2 → loop_cycle (request_redraw^[3]
         { requests := 0, redraws := 0, listenerFires := 0 }) 2 =
       { requests := 5, redraws := 0, listenerFires := 0 })) :=
  ⟨⟨rfl, by omega⟩, c3_debounce_coalescing ⟨0, 0, 0⟩ 3 2 rfl (by omega)⟩

/-! ### C7: Bezier endpoint reproduction -/

/-- C7: the cubic used by draw_bezier_curve, evaluated at t = 0 of a segment
whose endpoints are the canvas-mapped input points, returns exactly the pixel
coordinate of the mapped left endpoint, and at t = 1 exactly that of the
mapped right endpoint, for every choice of control-point overrides (helper
slopes) and segment kind. -/
theorem c7_bezier_endpoints (config : ChartsConfiguration) (bounds : ℕ × ℕ)
    (q0 q1 : ℚ × ℚ) (o1 o2 : Option (ℚ × ℚ)) (pos : BezPos) :
    manipulate 0 (bz_map_to_canvas config bounds q0) (bz_map_to_canvas config bounds q1)
        o1 o2 pos = int_vector (bz_map_to_canvas config bounds q0) ∧
    manipulate 1 (bz_map_to_canvas config bounds q0) (bz_map_to_canvas config bounds q1)
        o1 o2 pos = int_vector (bz_map_to_canvas config bounds q1) :=
  ⟨manipulate_at_zero _ _ _ _ _, manipulate_at_one _ _ _ _ _⟩

/-! ### C10: setter frame effects -/

/-- C10 counterexample: TrendChartsView.set_data is a view property setter
with no equality guard; called with a value equal to the current one it still
increments the redraw-request counter, contradicting the universal claim. -/
theorem c10_setter_counterexample :
    (trendcharts_set_data ⟨[], 2, 0, 0⟩ ([] : List ChartTuple)).requests = 1 ∧
    (1 : ℕ) ≠ 0 := by
  constructor
  · rfl
  · decide

/-- C10 (amended): the equality-guarded setters VGroup.set_alignment,
TextView.set_font_size and Surface.set_fill leave the state (and hence the
request counter) unchanged when given the current value, and otherwise update
exactly the named field while incrementing the request counter by one;
TrendChartsView.set_data is an exception, storing and invalidating
unconditionally. -/
theorem c10_guarded_setters :
    (∀ (s : VGroupState) (a : ViewAlignmentHorizontal),
      (a = s.alignment → vgroup_set_alignment s a = s) ∧
      (a ≠ s.alignment → vgroup_set_alignment s a =
        { alignment := a, requests := s.requests + 1 })) ∧
    (∀ (s : TextViewState) (v : ℚ),
      (v = s.font_size → textview_set_font_size s v = s) ∧
      (v ≠ s.font_size → textview_set_font_size s v =
        { s with font_size := v, requests := s.requests + 1 })) ∧
    (∀ (s : SurfaceState) (v : ℤ),
      (v = s.fill → surface_set_fill s v = s) ∧
      (v ≠ s.fill → surface_set_fill s v =
        { s with fill := v, requests := s.requests + 1 })) ∧
    (∀ (s : TrendChartsState) (d : List ChartTuple),
      trendcharts_set_data s d = { s with data := d, requests := s.requests + 1 }) := by
  refine ⟨fun s a => ⟨fun h => ?_, fun h => ?_⟩,
          fun s v => ⟨fun h => ?_, fun h => ?_⟩,
          fun s v => ⟨fun h => ?_, fun h => ?_⟩,
          fun s d => rfl⟩
  · simp [vgroup_set_alignment, h]
  · exact if_pos (show s.alignment ≠ a from fun he => h he.symm)
  · simp [textview_set_font_size, h]
  · simp only [textview_set_font_size, if_pos h]
  · simp [surface_set_fill, h]
  · simp only [surface_set_fill, if_pos h]

theorem c10_guarded_setters_witness :
    vgroup_set_alignment ⟨ViewAlignmentHorizontal.LEFT, 4⟩ ViewAlignmentHorizontal.LEFT =
      ⟨ViewAlignmentHorizontal.LEFT, 4⟩ ∧
    vgroup_set_alignment ⟨ViewAlignmentHorizontal.LEFT, 4⟩ ViewAlignmentHorizontal.RIGHT =
      ⟨ViewAlignmentHorizontal.RIGHT, 5⟩ :=
  ⟨(c10_guarded_setters.1 ⟨ViewAlignmentHorizontal.LEFT, 4⟩ ViewAlignmentHorizontal.LEFT).1
      rfl,
   (c10_guarded_setters.1 ⟨ViewAlignmentHorizontal.LEFT, 4⟩ ViewAlignmentHorizontal.RIGHT).2
      (by decide)⟩

/-! ### C1: Group.measure two-tier space-starvation policy -/

/-- C1: for every child whose preferred size resolves (a per-axis pair),
Group.measure produces exactly the measurement described by the two-tier
starvation policy `starvation_spec`: position-overflow reflows to the far
edge, then (if still non-positive) to the leading margins with a clamp to the
parent's size, while mere size-overflow clamps to the remaining space minus
trailing margins. -/
theorem c1_starvation_policy (parentSize : ℚ × ℚ) (child : ChildView) (effSize : ℚ × ℚ)
    (heff : get_effective_size child parentSize = some effSize) :
    group_measure_child parentSize child = some (starvation_spec parentSize child effSize) := by
  simp only [group_measure_child, starvation_spec, heff]
  by_cases h1 : is_positive
      (subtract parentSize (plus child.position (child.margin.left, child.margin.top)))
  · have h1' : is_positive
        (parentSize.1 - (child.position.1 + child.margin.left),
         parentSize.2 - (child.position.2 + child.margin.top)) := h1
    rw [if_neg (not_not_intro h1), if_pos h1']
    by_cases h2 : is_inside
        (subtract parentSize (plus child.position (child.margin.left, child.margin.top)))
        effSize
    · have h2' : is_inside
          (parentSize.1 - (child.position.1 + child.margin.left),
           parentSize.2 - (child.position.2 + child.margin.top)) effSize := h2
      rw [if_neg (not_not_intro h2), if_pos h2']
      rfl
    · have h2' : ¬ is_inside
          (parentSize.1 - (child.position.1 + child.margin.left),
           parentSize.2 - (child.position.2 + child.margin.top)) effSize := h2
      rw [if_pos h2, if_neg h2']
      rfl
  · have h1' : ¬ is_positive
        (parentSize.1 - (child.position.1 + child.margin.left),
         parentSize.2 - (child.position.2 + child.margin.top)) := h1
    rw [if_pos h1, if_neg h1']
    by_cases h3 : is_positive
        (subtract parentSize (plus effSize (child.margin.right, child.margin.bottom)))
    · have h3' : is_positive
          (parentSize.1 - (effSize.1 + child.margin.right),
           parentSize.2 - (effSize.2 + child.margin.bottom)) := h3
      rw [if_neg (not_not_intro h3), if_pos h3']
      rfl
    · have h3' : ¬ is_positive
          (parentSize.1 - (effSize.1 + child.margin.right),
           parentSize.2 - (effSize.2 + child.margin.bottom)) := h3
      rw [if_pos h3, if_neg h3']
      have e1 : (if effSize.1 > parentSize.1 then (parentSize.1, effSize.2) else effSize)
          = ((min effSize.1 parentSize.1, effSize.2) : ℚ × ℚ) := by
        rcases le_or_lt effSize.1 parentSize.1 with h | h
        · rw [if_neg (not_lt.mpr h), min_eq_left h]
        · rw [if_pos h, min_eq_right h.le]
      rw [e1]
      have e2 : (if ((min effSize.1 parentSize.1, effSize.2) : ℚ × ℚ).2 > parentSize.2
            then (((min effSize.1 parentSize.1, effSize.2) : ℚ × ℚ).1, parentSize.2)
            else ((min effSize.1 parentSize.1, effSize.2) : ℚ × ℚ))
          = ((min effSize.1 parentSize.1, min effSize.2 parentSize.2) : ℚ × ℚ) := by
        rcases le_or_lt effSize.2 parentSize.2 with h | h
        · rw [if_neg (not_lt.mpr (by simpa using h)), min_eq_left h]
        · rw [if_pos (by simpa using h), min_eq_right h.le]
      rw [e2]

theorem c1_starvation_policy_witness :
    get_effective_size ⟨(0, 0), .pair (.fixed 5) (.fixed 5), ⟨0, 0, 0, 0⟩, (0, 0)⟩ (10, 10)
      = some (5, 5) ∧
    group_measure_child (10, 10)
        ⟨(0, 0), .pair (.fixed 5) (.fixed 5), ⟨0, 0, 0, 0⟩, (0, 0)⟩ =
      some (starvation_spec (10, 10)
        ⟨(0, 0), .pair (.fixed 5) (.fixed 5), ⟨0, 0, 0, 0⟩, (0, 0)⟩ (5, 5)) :=
  ⟨rfl, c1_starvation_policy (10, 10)
    ⟨(0, 0), .pair (.fixed 5) (.fixed 5), ⟨0, 0, 0, 0⟩, (0, 0)⟩ (5, 5) rfl⟩

/-! ### C4: FillParent children -/

/-- C4 counterexample: a MATCH_PARENT × MATCH_PARENT child at preferred
position (10, 10) with zero margins inside a parent of actual size (100, 50)
ends with actual size (90, 40) — the remaining space — not the parent's size,
because the size-overflow clamp rewrites both axes. -/
theorem c4_fill_parent_counterexample :
    (group_measure_child (100, 50)
        ⟨(10, 10), .pair .matchParent .matchParent, ⟨0, 0, 0, 0⟩, (0, 0)⟩).map
      (fun m => m.size) = some (90, 40) ∧
    ((90 : ℚ), (40 : ℚ)) ≠ ((100 : ℚ), (50 : ℚ)) := by
  constructor
  · norm_num [group_measure_child, get_effective_size, effective_component,
      is_positive, is_inside, subtract, plus]
  · norm_num [Prod.ext_iff]

/-- C4 (amended): a child with FillParent on an axis, preferred position
(0, 0) and all margins zero always resolves, after Group.measure, to the
parent's actual size on that axis, for every parent size; with a nonzero
preferred position the FillParent axis can instead be clamped to the
remaining space (see the counterexample). -/
theorem c4_fill_parent_zero_position (P : ℚ × ℚ) (s1 s2 : SizeSpec) (c1 c2 : ℚ × ℚ) :
    ((group_measure_child P ⟨(0, 0), .pair .matchParent s1, ⟨0, 0, 0, 0⟩, c1⟩).map
      (fun m => m.size.1)) = some P.1 ∧
    ((group_measure_child P ⟨(0, 0), .pair s2 .matchParent, ⟨0, 0, 0, 0⟩, c2⟩).map
      (fun m => m.size.2)) = some P.2 := by
  constructor <;>
  · simp only [group_measure_child, get_effective_size, effective_component]
    split_ifs <;> simp_all [plus, subtract, is_positive, is_inside]

/-! ### C5: overflow clamping -/

/-- C5 counterexample, two concrete instances refuting the claim as stated:
(1) a (200, 10) child with a right margin of 150 inside a (100, 50) parent
resolves to width -50 — the resolved size can be negative; (2) a (100, 50)
child with a right margin of 10 fits the remaining space by the code's
size-only test, so no clamp fires and resolved width + margins = 110 exceeds
the remaining 100. -/
theorem c5_clamp_counterexample :
    ((group_measure_child (100, 50)
        ⟨(0, 0), .pair (.fixed 200) (.fixed 10), ⟨0, 150, 0, 0⟩, (0, 0)⟩).map
      (fun m => m.size.1) = some (-50) ∧ (-50 : ℚ) < 0) ∧
    ((group_measure_child (100, 50)
        ⟨(0, 0), .pair (.fixed 100) (.fixed 50), ⟨0, 10, 0, 0⟩, (0, 0)⟩).map
      (fun m => m.size.1) = some 100 ∧ (100 : ℚ) + 10 > 100) := by
  refine ⟨⟨?_, by norm_num⟩, ⟨?_, by norm_num⟩⟩ <;>
    norm_num [group_measure_child, get_effective_size, effective_component,
      is_positive, is_inside, subtract, plus]

/-- C5 (amended): when Group.measure finds positive remaining space but the
resolved size (alone — margins are not part of the test) overflows it, the
size is set to the remaining space minus trailing margins, so that resolved
size plus trailing margin equals the remaining space on each axis (in
particular never exceeds it, but it can be negative when margins exceed the
remaining space); in VGroup.measure, a width overflowing the group's width
ends with width + horizontal margins = group width, and a height overflowing
the space left below the previous child ends with height + vertical margins =
that leftover space. -/
theorem c5_overflow_clamp :
    (∀ (P : ℚ × ℚ) (child : ChildView) (effSize : ℚ × ℚ),
      get_effective_size child P = some effSize →
      is_positive (subtract P (plus child.position (child.margin.left, child.margin.top))) →
      ¬ is_inside (subtract P (plus child.position (child.margin.left, child.margin.top)))
        effSize →
      ((group_measure_child P child).map (fun m =>
        (m.size.1 + child.margin.right, m.size.2 + child.margin.bottom))) =
        some (P.1 - (child.position.1 + child.margin.left),
              P.2 - (child.position.2 + child.margin.top))) ∧
    (∀ (gs : ℚ × ℚ) (a : ViewAlignmentHorizontal) (lastB : ℚ) (child : ChildView),
      (vgroup_resolve_size gs child).1 + child.margin.right + child.margin.left > gs.1 →
      (vgroup_measure_child gs a lastB child).size.1 + child.margin.right +
        child.margin.left = gs.1) ∧
    (∀ (gs : ℚ × ℚ) (a : ViewAlignmentHorizontal) (lastB : ℚ) (child : ChildView),
      (vgroup_resolve_size gs child).2 + child.margin.top + child.margin.bottom >
        gs.2 - lastB →
      (vgroup_measure_child gs a lastB child).size.2 + child.margin.top +
        child.margin.bottom = gs.2 - lastB) := by
  refine ⟨fun P child effSize heff hpos hnin => ?_, fun gs a lastB child h => ?_,
    fun gs a lastB child h => ?_⟩
  · simp only [group_measure_child, heff]
    rw [if_neg (not_not_intro hpos), if_pos hnin]
    simp only [Option.map_some', subtract, plus, Option.some.injEq, Prod.mk.injEq]
    constructor <;> ring
  · simp only [vgroup_measure_child]
    rw [if_pos h]
    split_ifs <;> simp <;> ring
  · simp only [vgroup_measure_child]
    split_ifs with h1 h2 h2 <;> simp_all <;> linarith

theorem c5_overflow_clamp_witness :
    (get_effective_size ⟨(0, 0), .pair (.fixed 200) (.fixed 10), ⟨0, 0, 0, 0⟩, (0, 0)⟩
        (100, 50) = some (200, 10) ∧
     is_positive (subtract (100, 50) (plus (0, 0) ((0 : ℚ), (0 : ℚ)))) ∧
     ¬ is_inside (subtract (100, 50) (plus (0, 0) ((0 : ℚ), (0 : ℚ)))) (200, 10)) ∧
    ((group_measure_child (100, 50)
        ⟨(0, 0), .pair (.fixed 200) (.fixed 10), ⟨0, 0, 0, 0⟩, (0, 0)⟩).map (fun m =>
        (m.size.1 + (0 : ℚ), m.size.2 + (0 : ℚ)))) =
      some ((100 : ℚ) - (0 + 0), (50 : ℚ) - (0 + 0)) :=
  ⟨⟨rfl, by norm_num [is_positive, subtract, plus],
    by norm_num [is_inside, subtract, plus]⟩,
   c5_overflow_clamp.1 (100, 50)
     ⟨(0, 0), .pair (.fixed 200) (.fixed 10), ⟨0, 0, 0, 0⟩, (0, 0)⟩ (200, 10) rfl
     (by norm_num [is_positive, subtract, plus])
     (by norm_num [is_inside, subtract, plus])⟩

/-! ### C9: VGroup stacking positions -/

theorem vgroup_child_y (gs : ℚ × ℚ) (a : ViewAlignmentHorizontal) (lastB : ℚ)
    (p c : ℚ × ℚ) (w : SizeSpec) (hv : ℚ) (hfit : hv ≤ gs.2 - lastB) :
    (vgroup_measure_child gs a lastB ⟨p, .pair w (.fixed hv), ⟨0, 0, 0, 0⟩, c⟩).position.2
      = lastB ∧
    (vgroup_measure_child gs a lastB ⟨p, .pair w (.fixed hv), ⟨0, 0, 0, 0⟩, c⟩).size.2
      = hv ∧
    (vgroup_measure_child gs a lastB
      ⟨p, .pair w (.fixed hv), ⟨0, 0, 0, 0⟩, c⟩).margin.bottom = 0 := by
  simp only [vgroup_measure_child, vgroup_resolve_size, effective_component]
  cases a <;> split_ifs <;> simp_all <;> linarith

/-- C9: a VGroup of actual height 100 with exactly three children of
preferred heights 10, 20 and 30 and zero margins assigns along-axis
positions 0, 10 and 30 in insertion order, whatever the group's width, the
alignment, and the children's widths, positions and content sizes. -/
theorem c9_vgroup_stacking (W : ℚ) (a : ViewAlignmentHorizontal)
    (p1 p2 p3 c1 c2 c3 : ℚ × ℚ) (w1 w2 w3 : SizeSpec) :
    (vgroup_measure (W, 100) a
      [⟨p1, .pair w1 (.fixed 10), ⟨0, 0, 0, 0⟩, c1⟩,
       ⟨p2, .pair w2 (.fixed 20), ⟨0, 0, 0, 0⟩, c2⟩,
       ⟨p3, .pair w3 (.fixed 30), ⟨0, 0, 0, 0⟩, c3⟩]).map (fun m => m.position.2)
      = [0, 10, 30] := by
  obtain ⟨hp1, hs1, hm1⟩ :=
    vgroup_child_y (W, 100) a 0 p1 c1 w1 10 (by norm_num)
  simp only [vgroup_measure, vgroup_measure_go, List.map]
  rw [hp1, hs1, hm1]
  norm_num
  obtain ⟨hp2, hs2, hm2⟩ :=
    vgroup_child_y (W, 100) a 10 p2 c2 w2 20 (by norm_num)
  rw [hp2, hs2, hm2]
  norm_num
  obtain ⟨hp3, hs3, hm3⟩ :=
    vgroup_child_y (W, 100) a 30 p3 c3 w3 30 (by norm_num)
  rw [hp3]

/-! ### C8: axis domain computation -/

theorem foldl_min_le_init (l : List ℚ) (a : ℚ) : l.foldl min a ≤ a := by
  induction l generalizing a with
  | nil => exact le_refl a
  | cons b t ih => exact le_trans (ih (min a b)) (min_le_left a b)

theorem foldl_min_le_mem (l : List ℚ) (a : ℚ) : ∀ x ∈ l, l.foldl min a ≤ x := by
  induction l generalizing a with
  | nil => intro x hx; cases hx
  | cons b t ih =>
    intro x hx
    rcases List.mem_cons.mp hx with h | h
    · subst h
      exact le_trans (foldl_min_le_init t (min a x)) (min_le_right a x)
    · exact ih (min a b) x h

theorem foldl_min_mem (l : List ℚ) (a : ℚ) : l.foldl min a = a ∨ l.foldl min a ∈ l := by
  induction l generalizing a with
  | nil => exact Or.inl rfl
  | cons b t ih =>
    rcases ih (min a b) with h | h
    · rcases min_choice a b with hm | hm
      · exact Or.inl (by rw [List.foldl_cons, h, hm])
      · exact Or.inr (by rw [List.foldl_cons, h, hm]; exact List.mem_cons_self b t)
    · exact Or.inr (List.mem_cons_of_mem b h)

theorem foldl_max_le_init (l : List ℚ) (a : ℚ) : a ≤ l.foldl max a := by
  induction l generalizing a with
  | nil => exact le_refl a
  | cons b t ih => exact le_trans (le_max_left a b) (ih (max a b))

theorem foldl_max_le_mem (l : List ℚ) (a : ℚ) : ∀ x ∈ l, x ≤ l.foldl max a := by
  induction l generalizing a with
  | nil => intro x hx; cases hx
  | cons b t ih =>
    intro x hx
    rcases List.mem_cons.mp hx with h | h
    · subst h
      exact le_trans (le_max_right a x) (foldl_max_le_init t (max a x))
    · exact ih (max a b) x h

theorem foldl_max_mem (l : List ℚ) (a : ℚ) : l.foldl max a = a ∨ l.foldl max a ∈ l := by
  induction l generalizing a with
  | nil => exact Or.inl rfl
  | cons b t ih =>
    rcases ih (max a b) with h | h
    · rcases max_choice a b with hm | hm
      · exact Or.inl (by rw [List.foldl_cons, h, hm])
      · exact Or.inr (by rw [List.foldl_cons, h, hm]; exact List.mem_cons_self b t)
    · exact Or.inr (List.mem_cons_of_mem b h)

theorem exact_min_foldl (a : ℚ) (l : List ℚ) : exact_min (a :: l) (l.foldl min a) := by
  constructor
  · rcases foldl_min_mem l a with h | h
    · rw [h]; exact List.mem_cons_self a l
    · exact List.mem_cons_of_mem a h
  · intro x hx
    rcases List.mem_cons.mp hx with h | h
    · rw [h]; exact foldl_min_le_init l a
    · exact foldl_min_le_mem l a x h

theorem exact_max_foldl (a : ℚ) (l : List ℚ) : exact_max (a :: l) (l.foldl max a) := by
  constructor
  · rcases foldl_max_mem l a with h | h
    · rw [h]; exact List.mem_cons_self a l
    · exact List.mem_cons_of_mem a h
  · intro x hx
    rcases List.mem_cons.mp hx with h | h
    · rw [h]; exact foldl_max_le_init l a
    · exact foldl_max_le_mem l a x h

theorem foldl_pair_minmax (l : List ChartTuple) (a b : ℚ) :
    l.foldl (fun acc p => (min acc.1 p.2, max acc.2 p.2)) (a, b) =
      ((l.map (fun p => p.2)).foldl min a, (l.map (fun p => p.2)).foldl max b) := by
  induction l generalizing a b with
  | nil => rfl
  | cons c t ih => simp [ih]

theorem foldlM_x_bound_num (rest : List (ℚ × ℚ)) (acc : ℚ × ℚ) :
    (rest.map (fun q => ((IVar.num q.1, q.2) : ChartTuple))).foldlM x_bound_step acc =
      some ((rest.map (fun q => q.1)).foldl min acc.1,
            (rest.map (fun q => q.1)).foldl max acc.2) := by
  induction rest generalizing acc with
  | nil => rfl
  | cons c t ih => simp [x_bound_step, ih]

/-- C8 counterexample: a numeric series whose dependent values are all equal
(here [(0, 5), (1, 5)]) takes the degenerate early return of
update_axis_bounds, leaving the x axis at its previous (7, 7) bounds instead
of the exact min/max (0, 1) of the independent values. -/
theorem c8_axis_bounds_counterexample :
    (update_axis_bounds [(IVar.num 0, 5), (IVar.num 1, 5)]
        ⟨true, 0, 0⟩ ⟨true, 7, 7⟩).map (fun r => (r.2.min, r.2.max)) =
      some ((7 : ℚ), (7 : ℚ)) ∧
    ¬ exact_min [(0 : ℚ), 1] 7 := by
  constructor
  · norm_num [update_axis_bounds, List.foldl]
  · intro h
    rcases h with ⟨hm, _⟩
    norm_num at hm

/-- C8 (amended): on every non-empty data series update_axis_bounds sets the
dependent (y) axis bounds to the exact min and max of the dependent values;
when the independent values are numeric it additionally sets the independent
(x) axis bounds to the exact min and max of the independent values, but only
when the dependent values are not all equal — a degenerate y-range returns
early and leaves the x axis untouched (as do categorical series). -/
theorem c8_axis_bounds :
    (∀ (s : String) (d0 : ℚ) (rest : List ChartTuple) (y0 x0 : Axis),
      ∃ y2 : Axis,
        update_axis_bounds ((IVar.cat s, d0) :: rest) y0 x0 = some (y2, x0) ∧
        y2.enabled = y0.enabled ∧
        exact_min (((IVar.cat s, d0) :: rest).map (fun p => p.2)) y2.min ∧
        exact_max (((IVar.cat s, d0) :: rest).map (fun p => p.2)) y2.max) ∧
    (∀ (q : ℚ × ℚ) (rest : List (ℚ × ℚ)) (y0 x0 : Axis),
      ∃ y2 x2 : Axis,
        update_axis_bounds
          (((q :: rest).map (fun r => ((IVar.num r.1, r.2) : ChartTuple)))) y0 x0 =
          some (y2, x2) ∧
        y2.enabled = y0.enabled ∧
        exact_min ((q :: rest).map (fun r => r.2)) y2.min ∧
        exact_max ((q :: rest).map (fun r => r.2)) y2.max ∧
        (y2.min = y2.max → x2 = x0) ∧
        (y2.min ≠ y2.max →
          x2.enabled = x0.enabled ∧
          exact_min ((q :: rest).map (fun r => r.1)) x2.min ∧
          exact_max ((q :: rest).map (fun r => r.1)) x2.max)) := by
  constructor
  · intro s d0 rest y0 x0
    simp only [update_axis_bounds]
    rw [foldl_pair_minmax]
    split_ifs with h
    · exact ⟨_, rfl, rfl, by simpa using exact_min_foldl d0 (rest.map (fun p => p.2)),
        by simpa using exact_max_foldl d0 (rest.map (fun p => p.2))⟩
    · exact ⟨_, rfl, rfl, by simpa using exact_min_foldl d0 (rest.map (fun p => p.2)),
        by simpa using exact_max_foldl d0 (rest.map (fun p => p.2))⟩
  · intro q rest y0 x0
    simp only [update_axis_bounds, List.map_cons]
    rw [foldl_pair_minmax]
    simp only [List.map_map, Function.comp]
    split_ifs with h
    · refine ⟨_, x0, rfl, rfl,
        by simpa using exact_min_foldl q.2 (rest.map (fun r => r.2)),
        by simpa using exact_max_foldl q.2 (rest.map (fun r => r.2)),
        fun _ => rfl, fun hne => absurd h hne⟩
    · rw [foldlM_x_bound_num]
      refine ⟨_, _, rfl, rfl,
        by simpa using exact_min_foldl q.2 (rest.map (fun r => r.2)),
        by simpa using exact_max_foldl q.2 (rest.map (fun r => r.2)),
        fun heq => absurd heq h, fun _ => ⟨rfl,
          by simpa using exact_min_foldl q.1 (rest.map (fun r => r.1)),
          by simpa using exact_max_foldl q.1 (rest.map (fun r => r.1))⟩⟩

/-! ### C6: degenerate (all-equal) data series -/

theorem foldl_min_const (l : List ℚ) (c : ℚ) (h : ∀ x ∈ l, x = c) :
    l.foldl min c = c := by
  induction l with
  | nil => rfl
  | cons b t ih =>
    rw [List.foldl_cons, h b (List.mem_cons_self b t), min_self]
    exact ih (fun x hx => h x (List.mem_cons_of_mem b hx))

theorem foldl_max_const (l : List ℚ) (c : ℚ) (h : ∀ x ∈ l, x = c) :
    l.foldl max c = c := by
  induction l with
  | nil => rfl
  | cons b t ih =>
    rw [List.foldl_cons, h b (List.mem_cons_self b t), max_self]
    exact ih (fun x hx => h x (List.mem_cons_of_mem b hx))

theorem update_axis_bounds_const (data : List ChartTuple) (c : ℚ) (y0 x0 : Axis)
    (hne : data ≠ []) (hall : ∀ p ∈ data, p.2 = c) :
    update_axis_bounds data y0 x0 = some ({ y0 with min := c, max := c }, x0) := by
  match data, hne with
  | d0 :: rest, _ =>
    simp only [update_axis_bounds]
    rw [foldl_pair_minmax]
    have hd0 : d0.2 = c := hall d0 (List.mem_cons_self d0 rest)
    have hrest : ∀ x ∈ rest.map (fun p => p.2), x = c := by
      intro x hx
      rcases List.mem_map.mp hx with ⟨p, hp, hpx⟩
      rw [← hpx]
      exact hall p (List.mem_cons_of_mem d0 hp)
    have hmin : (rest.map (fun p => p.2)).foldl min d0.2 = c := by
      rw [hd0]; exact foldl_min_const _ c hrest
    have hmax : (rest.map (fun p => p.2)).foldl max d0.2 = c := by
      rw [hd0]; exact foldl_max_const _ c hrest
    rw [hmin, hmax, if_pos rfl]

/-- C6: for a non-empty series whose dependent values are all equal, once the
axis bounds are recomputed (leaving the x axis untouched and making the
y-range degenerate), draw_straight_line draws one horizontal polyline at the
vertical midpoint ⌊h/2⌋ of the body and returns each point with index x at
pixel (⌊x/n·w⌋, ⌊h/2⌋) paired with its original tuple, and draw_bezier_curve
delegates wholesale to draw_straight_line, returning the same polyline and
the same points — for numeric and categorical independent values alike. -/
theorem c6_degenerate_chart (bounds : ℕ × ℕ) (data : List ChartTuple) (c : ℚ)
    (y0 x0 : Axis) (title : String)
    (hne : data ≠ []) (hall : ∀ p ∈ data, p.2 = c) :
    update_axis_bounds data y0 x0 = some ({ y0 with min := c, max := c }, x0) ∧
    draw_straight_line bounds ⟨title, x0, { y0 with min := c, max := c }⟩ data =
      some ([((0 : ℤ), Int.floor ((bounds.2 : ℚ) / 2)),
             ((bounds.1 : ℤ), Int.floor ((bounds.2 : ℚ) / 2))],
        data.enum.map (fun p =>
          ((Int.floor ((p.1 : ℚ) / (data.length : ℚ) * (bounds.1 : ℚ)),
            Int.floor ((bounds.2 : ℚ) / 2)), p.2))) ∧
    draw_bezier_curve bounds ⟨title, x0, { y0 with min := c, max := c }⟩ data =
      some (some [((0 : ℤ), Int.floor ((bounds.2 : ℚ) / 2)),
                  ((bounds.1 : ℤ), Int.floor ((bounds.2 : ℚ) / 2))],
        data.enum.map (fun p =>
          ((Int.floor ((p.1 : ℚ) / (data.length : ℚ) * (bounds.1 : ℚ)),
            Int.floor ((bounds.2 : ℚ) / 2)), p.2))) := by
  have hyc : pyInt ((bounds.2 : ℚ) / 2) = Int.floor ((bounds.2 : ℚ) / 2) :=
    pyInt_eq_floor_of_nonneg (by positivity)
  have hline : draw_straight_line bounds ⟨title, x0, { y0 with min := c, max := c }⟩ data =
      some ([((0 : ℤ), Int.floor ((bounds.2 : ℚ) / 2)),
             ((bounds.1 : ℤ), Int.floor ((bounds.2 : ℚ) / 2))],
        data.enum.map (fun p =>
          ((Int.floor ((p.1 : ℚ) / (data.length : ℚ) * (bounds.1 : ℚ)),
            Int.floor ((bounds.2 : ℚ) / 2)), p.2))) := by
    simp only [draw_straight_line]
    rw [if_pos (sub_self c)]
    simp only [hyc]
    refine congrArg some (Prod.ext rfl ?_)
    exact List.map_congr_left (fun p hp => by
      rw [pyInt_eq_floor_of_nonneg (by positivity)])
  refine ⟨update_axis_bounds_const data c y0 x0 hne hall, hline, ?_⟩
  simp only [draw_bezier_curve]
  rw [if_pos trivial, hline]
  rfl

theorem c6_degenerate_chart_witness :
    (([((IVar.cat "a", 5) : ChartTuple), (IVar.cat "b", 5), (IVar.cat "c", 5),
        (IVar.cat "d", 5)] : List ChartTuple) ≠ [] ∧
     ∀ p ∈ ([((IVar.cat "a", 5) : ChartTuple), (IVar.cat "b", 5), (IVar.cat "c", 5),
        (IVar.cat "d", 5)] : List ChartTuple), p.2 = (5 : ℚ)) ∧
    (update_axis_bounds
        [((IVar.cat "a", 5) : ChartTuple), (IVar.cat "b", 5), (IVar.cat "c", 5),
         (IVar.cat "d", 5)] ⟨true, 0, 0⟩ ⟨true, 0, 0⟩ =
      some (⟨true, 5, 5⟩, ⟨true, 0, 0⟩) ∧
     draw_straight_line (100, 50) ⟨"t", ⟨true, 0, 0⟩, ⟨true, 5, 5⟩⟩
        [((IVar.cat "a", 5) : ChartTuple), (IVar.cat "b", 5), (IVar.cat "c", 5),
         (IVar.cat "d", 5)] =
      some ([((0 : ℤ), Int.floor ((50 : ℚ) / 2)), ((100 : ℤ), Int.floor ((50 : ℚ) / 2))],
        ([((IVar.cat "a", 5) : ChartTuple), (IVar.cat "b", 5), (IVar.cat "c", 5),
          (IVar.cat "d", 5)] : List ChartTuple).enum.map (fun p =>
          ((Int.floor ((p.1 : ℚ) / (4 : ℚ) * (100 : ℚ)), Int.floor ((50 : ℚ) / 2)), p.2))) ∧
     draw_bezier_curve (100, 50) ⟨"t", ⟨true, 0, 0⟩, ⟨true, 5, 5⟩⟩
        [((IVar.cat "a", 5) : ChartTuple), (IVar.cat "b", 5), (IVar.cat "c", 5),
         (IVar.cat "d", 5)] =
      some (some [((0 : ℤ), Int.floor ((50 : ℚ) / 2)), ((100 : ℤ), Int.floor ((50 : ℚ) / 2))],
        ([((IVar.cat "a", 5) : ChartTuple), (IVar.cat "b", 5), (IVar.cat "c", 5),
          (IVar.cat "d", 5)] : List ChartTuple).enum.map (fun p =>
          ((Int.floor ((p.1 : ℚ) / (4 : ℚ) * (100 : ℚ)), Int.floor ((50 : ℚ) / 2)), p.2)))) :=
  ⟨⟨by simp, by intro p hp; fin_cases hp <;> rfl⟩,
   c6_degenerate_chart (100, 50)
     [((IVar.cat "a", 5) : ChartTuple), (IVar.cat "b", 5), (IVar.cat "c", 5),
      (IVar.cat "d", 5)] 5 ⟨true, 0, 0⟩ ⟨true, 0, 0⟩ "t"
     (by simp) (by intro p hp; fin_cases hp <;> rfl)⟩

/-! ### C2: overlay compositing -/

theorem overlay_row_go_dims (fg : Img) (pos : ℤ × ℤ) (y : ℕ) :
    ∀ (xs : List ℕ) (bg : Img),
      ((overlay_row_go fg pos y xs bg).1).w = bg.w ∧
      ((overlay_row_go fg pos y xs bg).1).h = bg.h := by
  intro xs
  induction xs with
  | nil => intro bg; exact ⟨rfl, rfl⟩
  | cons x t ih =>
    intro bg
    simp only [overlay_row_go]
    split_ifs with h1 h2
    · exact ⟨(ih _).1, (ih _).2⟩
    · exact ih _
    · exact ⟨rfl, rfl⟩

theorem overlay_row_go_pix_ne_row (fg : Img) (pos : ℤ × ℤ) (y : ℕ) :
    ∀ (xs : List ℕ) (bg : Img) (a b : ℤ), b ≠ (y : ℤ) + pos.2 →
      ((overlay_row_go fg pos y xs bg).1).pix a b = bg.pix a b := by
  intro xs
  induction xs with
  | nil => intro bg a b hb; rfl
  | cons x t ih =>
    intro bg a b hb
    simp only [overlay_row_go]
    split_ifs with h1 h2
    · rw [ih _ a b hb]
      simp only [putpixel]
      rw [if_neg (fun hc => hb hc.2)]
    · exact ih _ a b hb
    · rfl

theorem overlay_row_go_oob (fg : Img) (pos : ℤ × ℤ) (y : ℕ) (bg : Img)
    (hy : (bg.h : ℤ) ≤ (y : ℤ) + pos.2) :
    ∀ xs : List ℕ, overlay_row_go fg pos y xs bg = (bg, if xs = [] then 0 else 1) := by
  intro xs
  cases xs with
  | nil => rfl
  | cons x t =>
    simp only [overlay_row_go]
    rw [if_neg (fun hc => absurd hc.2 (not_lt.mpr hy))]
    simp

theorem overlay_row_go_pix (fg : Img) (pos : ℤ × ℤ) (y : ℕ) :
    ∀ (n s : ℕ) (bg : Img), (y : ℤ) + pos.2 < (bg.h : ℤ) →
    ∀ a : ℤ,
      ((overlay_row_go fg pos y (List.range' s n) bg).1).pix a ((y : ℤ) + pos.2) =
        if (s : ℤ) + pos.1 ≤ a ∧ a < ((s + n : ℕ) : ℤ) + pos.1 ∧ a < (bg.w : ℤ) ∧
            fg.pix (a - pos.1) (y : ℤ) ≠ COLOR_TRANSPARENT
        then fg.pix (a - pos.1) (y : ℤ)
        else bg.pix a ((y : ℤ) + pos.2) := by
  intro n
  induction n with
  | zero =>
    intro s bg hy a
    rw [if_neg (by rintro ⟨h1, h2, _, _⟩; push_cast at h2; omega)]
    rfl
  | succ n ih =>
    intro s bg hy a
    rw [List.range'_succ]
    simp only [overlay_row_go]
    by_cases h1 : is_strictly_inside (bg.w, bg.h) ((s : ℤ) + pos.1, (y : ℤ) + pos.2)
    · rw [if_pos h1]
      have h1' : (s : ℤ) + pos.1 < (bg.w : ℤ) := h1.1
      by_cases hpf : fg.pix (s : ℤ) (y : ℤ) ≠ COLOR_TRANSPARENT
      · rw [if_pos hpf,
          ih (s + 1) (putpixel bg ((s : ℤ) + pos.1, (y : ℤ) + pos.2)
            (fg.pix (s : ℤ) (y : ℤ))) hy a]
        simp only [putpixel]
        by_cases hax : a = (s : ℤ) + pos.1
        · have has : a - pos.1 = (s : ℤ) := by omega
          rw [if_neg (show ¬(((s + 1 : ℕ) : ℤ) + pos.1 ≤ a ∧
                a < ((s + 1 + n : ℕ) : ℤ) + pos.1 ∧ a < (bg.w : ℤ) ∧
                fg.pix (a - pos.1) (y : ℤ) ≠ COLOR_TRANSPARENT) from by
              rintro ⟨h2, _, _, _⟩; push_cast at h2; omega),
            if_pos (show a = (s : ℤ) + pos.1 ∧ True from ⟨hax, trivial⟩),
            if_pos (show (s : ℤ) + pos.1 ≤ a ∧ a < ((s + (n + 1) : ℕ) : ℤ) + pos.1 ∧
                a < (bg.w : ℤ) ∧ fg.pix (a - pos.1) (y : ℤ) ≠ COLOR_TRANSPARENT from
              ⟨le_of_eq hax.symm, by push_cast; omega, by omega,
               by rw [has]; exact hpf⟩),
            has]
        · rw [if_neg (show ¬(a = (s : ℤ) + pos.1 ∧ True) from fun hc => hax hc.1)]
          refine if_congr ?_ rfl rfl
          constructor
          · rintro ⟨h2, h3, h4, h5⟩
            exact ⟨by push_cast at h2 ⊢; omega, by push_cast at h3 ⊢; omega, h4, h5⟩
          · rintro ⟨h2, h3, h4, h5⟩
            exact ⟨by push_cast at h2 ⊢; omega, by push_cast at h3 ⊢; omega, h4, h5⟩
      · rw [if_neg hpf, ih (s + 1) bg hy a]
        by_cases hax : a = (s : ℤ) + pos.1
        · have has : a - pos.1 = (s : ℤ) := by omega
          rw [if_neg (show ¬(((s + 1 : ℕ) : ℤ) + pos.1 ≤ a ∧
                a < ((s + 1 + n : ℕ) : ℤ) + pos.1 ∧ a < (bg.w : ℤ) ∧
                fg.pix (a - pos.1) (y : ℤ) ≠ COLOR_TRANSPARENT) from by
              rintro ⟨h2, _, _, _⟩; push_cast at h2; omega),
            if_neg (show ¬((s : ℤ) + pos.1 ≤ a ∧ a < ((s + (n + 1) : ℕ) : ℤ) + pos.1 ∧
                a < (bg.w : ℤ) ∧ fg.pix (a - pos.1) (y : ℤ) ≠ COLOR_TRANSPARENT) from by
              rintro ⟨_, _, _, h5⟩; rw [has] at h5; exact h5 (not_not.mp hpf))]
        · refine if_congr ?_ rfl rfl
          constructor
          · rintro ⟨h2, h3, h4, h5⟩
            exact ⟨by push_cast at h2 ⊢; omega, by push_cast at h3 ⊢; omega, h4, h5⟩
          · rintro ⟨h2, h3, h4, h5⟩
            exact ⟨by push_cast at h2 ⊢; omega, by push_cast at h3 ⊢; omega, h4, h5⟩
    · rw [if_neg h1]
      have hW : (bg.w : ℤ) ≤ (s : ℤ) + pos.1 := by
        by_contra hc
        exact h1 ⟨by omega, hy⟩
      rw [if_neg (by rintro ⟨h2, _, h4, _⟩; omega)]

theorem overlay_row_go_warn (fg : Img) (pos : ℤ × ℤ) (y : ℕ) :
    ∀ (n s : ℕ) (bg : Img),
      (overlay_row_go fg pos y (List.range' s n) bg).2 =
        if n ≠ 0 ∧ ((bg.h : ℤ) ≤ (y : ℤ) + pos.2 ∨
            (bg.w : ℤ) ≤ (s : ℤ) + (n : ℤ) - 1 + pos.1)
        then 1 else 0 := by
  intro n
  induction n with
  | zero =>
    intro s bg
    rw [if_neg (by simp)]
    rfl
  | succ n ih =>
    intro s bg
    rw [List.range'_succ]
    simp only [overlay_row_go]
    by_cases h1 : is_strictly_inside (bg.w, bg.h) ((s : ℤ) + pos.1, (y : ℤ) + pos.2)
    · rw [if_pos h1]
      obtain ⟨h1w, h1h⟩ := h1
      by_cases hpf : fg.pix (s : ℤ) (y : ℤ) ≠ COLOR_TRANSPARENT
      · rw [if_pos hpf,
          ih (s + 1) (putpixel bg ((s : ℤ) + pos.1, (y : ℤ) + pos.2)
            (fg.pix (s : ℤ) (y : ℤ)))]
        simp only [putpixel]
        split_ifs with ha hb hb <;> first | rfl | (exfalso; omega)
      · rw [if_neg hpf, ih (s + 1) bg]
        split_ifs with ha hb hb <;> first | rfl | (exfalso; omega)
    · rw [if_neg h1]
      simp only [is_strictly_inside, not_and_or, not_lt] at h1
      rw [if_pos ⟨Nat.succ_ne_zero n, by
        rcases h1 with h | h
        · right; push_cast; omega
        · left; exact h⟩]

theorem overlay_go_pix (fg : Img) (pos : ℤ × ℤ) :
    ∀ (m t : ℕ) (bg : Img) (a b : ℤ),
      ((overlay_go fg pos (List.range' t m) bg).1).pix a b =
        if (t : ℤ) + pos.2 ≤ b ∧ b < ((t + m : ℕ) : ℤ) + pos.2 ∧ b < (bg.h : ℤ) ∧
            pos.1 ≤ a ∧ a < (fg.w : ℤ) + pos.1 ∧ a < (bg.w : ℤ) ∧
            fg.pix (a - pos.1) (b - pos.2) ≠ COLOR_TRANSPARENT
        then fg.pix (a - pos.1) (b - pos.2)
        else bg.pix a b := by
  intro m
  induction m with
  | zero =>
    intro t bg a b
    rw [if_neg (by rintro ⟨k1, k2, _⟩; push_cast at k2; omega)]
    rfl
  | succ m ih =>
    intro t bg a b
    rw [List.range'_succ]
    simp only [overlay_go]
    rw [ih (t + 1) ((overlay_row_go fg pos t (List.range fg.w) bg).1) a b]
    have hdw := (overlay_row_go_dims fg pos t (List.range fg.w) bg).1
    have hdh := (overlay_row_go_dims fg pos t (List.range fg.w) bg).2
    rw [hdw, hdh]
    by_cases hb : b = (t : ℤ) + pos.2
    · subst hb
      rw [if_neg (show ¬(((t + 1 : ℕ) : ℤ) + pos.2 ≤ (t : ℤ) + pos.2 ∧
            (t : ℤ) + pos.2 < ((t + 1 + m : ℕ) : ℤ) + pos.2 ∧
            (t : ℤ) + pos.2 < (bg.h : ℤ) ∧ pos.1 ≤ a ∧ a < (fg.w : ℤ) + pos.1 ∧
            a < (bg.w : ℤ) ∧
            fg.pix (a - pos.1) ((t : ℤ) + pos.2 - pos.2) ≠ COLOR_TRANSPARENT) from by
          rintro ⟨k1, _⟩; push_cast at k1; omega)]
      by_cases hyH : (t : ℤ) + pos.2 < (bg.h : ℤ)
      · rw [List.range_eq_range', overlay_row_go_pix fg pos t fg.w 0 bg hyH a]
        have hbt : (t : ℤ) + pos.2 - pos.2 = (t : ℤ) := by ring
        rw [hbt]
        refine if_congr ?_ rfl rfl
        constructor
        · rintro ⟨k1, k2, k3, k4⟩
          exact ⟨le_refl _, by push_cast; omega, hyH, by push_cast at k1 ⊢; omega,
            by push_cast at k2 ⊢; omega, k3, k4⟩
        · rintro ⟨k1, k2, k3, k4, k5, k6, k7⟩
          exact ⟨by push_cast at k4 ⊢; omega, by push_cast at k5 ⊢; omega, k6, k7⟩
      · rw [show (overlay_row_go fg pos t (List.range fg.w) bg).1 = bg from by
            rw [overlay_row_go_oob fg pos t bg (by omega) (List.range fg.w)],
          if_neg (show ¬((t : ℤ) + pos.2 ≤ (t : ℤ) + pos.2 ∧
            (t : ℤ) + pos.2 < ((t + (m + 1) : ℕ) : ℤ) + pos.2 ∧
            (t : ℤ) + pos.2 < (bg.h : ℤ) ∧ pos.1 ≤ a ∧ a < (fg.w : ℤ) + pos.1 ∧
            a < (bg.w : ℤ) ∧
            fg.pix (a - pos.1) ((t : ℤ) + pos.2 - pos.2) ≠ COLOR_TRANSPARENT) from by
          rintro ⟨_, _, k3, _⟩; omega)]
    · rw [overlay_row_go_pix_ne_row fg pos t (List.range fg.w) bg a b hb]
      refine if_congr ?_ rfl rfl
      constructor
      · rintro ⟨k1, k2, k3, k4, k5, k6, k7⟩
        exact ⟨by push_cast at k1 ⊢; omega, by push_cast at k2 ⊢; omega, k3, k4, k5, k6, k7⟩
      · rintro ⟨k1, k2, k3, k4, k5, k6, k7⟩
        exact ⟨by push_cast at k1 ⊢; omega, by push_cast at k2 ⊢; omega, k3, k4, k5, k6, k7⟩

theorem overlay_go_warn (fg : Img) (pos : ℤ × ℤ) :
    ∀ (m t : ℕ) (bg : Img),
      (overlay_go fg pos (List.range' t m) bg).2 =
        ((List.range' t m).filter (fun (y : ℕ) => decide (fg.w ≠ 0 ∧
          ((bg.h : ℤ) ≤ (y : ℤ) + pos.2 ∨
           (bg.w : ℤ) ≤ (fg.w : ℤ) - 1 + pos.1)))).length := by
  intro m
  induction m with
  | zero => intro t bg; rfl
  | succ m ih =>
    intro t bg
    rw [List.range'_succ]
    simp only [overlay_go, List.filter_cons]
    rw [ih (t + 1) ((overlay_row_go fg pos t (List.range fg.w) bg).1)]
    have hdw := (overlay_row_go_dims fg pos t (List.range fg.w) bg).1
    have hdh := (overlay_row_go_dims fg pos t (List.range fg.w) bg).2
    rw [hdw, hdh, List.range_eq_range', overlay_row_go_warn fg pos t fg.w 0 bg]
    split_ifs with hA hB hB <;> simp only [decide_eq_true_eq] at * <;>
      (try simp only [List.length_cons]) <;> omega

/-- C2 counterexample: compositing a 2×2 all-opaque foreground onto a 1×1
background at (0, 0) leaves three source pixels — (1,0), (0,1) and (1,1) —
with destinations outside the canvas.  The claim ("skips that single pixel
(with a warning)" for every such pixel) demands three warnings, but the code
breaks out of each row at its first out-of-bounds pixel and logs only two. -/
theorem c2_overlay_counterexample :
    (overlay ⟨1, 1, fun _ _ => 0⟩ ⟨2, 2, fun _ _ => 1⟩ (0, 0)).2 = 2 ∧ (2 : ℕ) ≠ 3 := by
  constructor
  · rfl
  · decide

/-- C2 (amended): for a non-negative position, every destination pixel inside
the background is overwritten by its source pixel exactly when that source
pixel differs from the sentinel 254 and left untouched otherwise; source
pixels whose destination falls outside the background never affect any
in-bounds pixel (the bounds check fails only past the far edges, and the
`break` it triggers skips only pixels that are themselves out of bounds);
warnings are logged once per affected source row — for the first
out-of-bounds pixel of that row — not once per skipped pixel. -/
theorem c2_overlay_bounds (bg fg : Img) (pos : ℤ × ℤ) (a b : ℤ)
    (hpx : 0 ≤ pos.1) (hpy : 0 ≤ pos.2)
    (ha0 : 0 ≤ a) (haw : a < (bg.w : ℤ)) (hb0 : 0 ≤ b) (hbh : b < (bg.h : ℤ)) :
    ((overlay bg fg pos).1).pix a b =
      (if pos.1 ≤ a ∧ a < (fg.w : ℤ) + pos.1 ∧ pos.2 ≤ b ∧ b < (fg.h : ℤ) + pos.2 ∧
          fg.pix (a - pos.1) (b - pos.2) ≠ COLOR_TRANSPARENT
       then fg.pix (a - pos.1) (b - pos.2) else bg.pix a b) ∧
    (overlay bg fg pos).2 =
      ((List.range fg.h).filter (fun (y : ℕ) => decide (fg.w ≠ 0 ∧
        ((bg.h : ℤ) ≤ (y : ℤ) + pos.2 ∨
         (bg.w : ℤ) ≤ (fg.w : ℤ) - 1 + pos.1)))).length := by
  constructor
  · simp only [overlay]
    rw [List.range_eq_range', overlay_go_pix fg pos fg.h 0 bg a b]
    refine if_congr ?_ rfl rfl
    constructor
    · rintro ⟨k1, k2, k3, k4, k5, k6, k7⟩
      exact ⟨k4, k5, by push_cast at k1 ⊢; omega, by push_cast at k2 ⊢; omega, k7⟩
    · rintro ⟨k1, k2, k3, k4, k5⟩
      exact ⟨by push_cast; omega, by push_cast; omega, hbh, k1, k2, haw, k5⟩
  · simp only [overlay]
    rw [List.range_eq_range']
    exact overlay_go_warn fg pos fg.h 0 bg

theorem c2_overlay_bounds_witness :
    ((0 : ℤ) ≤ ((1, 1) : ℤ × ℤ).1 ∧ (0 : ℤ) ≤ ((1, 1) : ℤ × ℤ).2 ∧
      (0 : ℤ) ≤ (1 : ℤ) ∧ (1 : ℤ) < (((⟨3, 3, fun _ _ => 9⟩ : Img).w : ℕ) : ℤ) ∧
      (0 : ℤ) ≤ (1 : ℤ) ∧ (1 : ℤ) < (((⟨3, 3, fun _ _ => 9⟩ : Img).h : ℕ) : ℤ)) ∧
    (((overlay ⟨3, 3, fun _ _ => 9⟩ ⟨1, 1, fun _ _ => 7⟩ (1, 1)).1).pix 1 1 =
      (if ((1, 1) : ℤ × ℤ).1 ≤ (1 : ℤ) ∧
          (1 : ℤ) < (((⟨1, 1, fun _ _ => 7⟩ : Img).w : ℕ) : ℤ) + ((1, 1) : ℤ × ℤ).1 ∧
          ((1, 1) : ℤ × ℤ).2 ≤ (1 : ℤ) ∧
          (1 : ℤ) < (((⟨1, 1, fun _ _ => 7⟩ : Img).h : ℕ) : ℤ) + ((1, 1) : ℤ × ℤ).2 ∧
          (⟨1, 1, fun _ _ => 7⟩ : Img).pix ((1 : ℤ) - ((1, 1) : ℤ × ℤ).1)
            ((1 : ℤ) - ((1, 1) : ℤ × ℤ).2) ≠ COLOR_TRANSPARENT
       then (⟨1, 1, fun _ _ => 7⟩ : Img).pix ((1 : ℤ) - ((1, 1) : ℤ × ℤ).1)
            ((1 : ℤ) - ((1, 1) : ℤ × ℤ).2)
       else (⟨3, 3, fun _ _ => 9⟩ : Img).pix 1 1) ∧
     (overlay ⟨3, 3, fun _ _ => 9⟩ ⟨1, 1, fun _ _ => 7⟩ (1, 1)).2 =
      ((List.range (⟨1, 1, fun _ _ => 7⟩ : Img).h).filter (fun (y : ℕ) =>
        decide ((⟨1, 1, fun _ _ => 7⟩ : Img).w ≠ 0 ∧
          ((((⟨3, 3, fun _ _ => 9⟩ : Img).h : ℕ) : ℤ) ≤ (y : ℤ) + ((1, 1) : ℤ × ℤ).2 ∨
           (((⟨3, 3, fun _ _ => 9⟩ : Img).w : ℕ) : ℤ) ≤
             (((⟨1, 1, fun _ _ => 7⟩ : Img).w : ℕ) : ℤ) - 1 +
               ((1, 1) : ℤ × ℤ).1)))).length) :=
  ⟨⟨by decide, by decide, by decide, by decide, by decide, by decide⟩,
   c2_overlay_bounds ⟨3, 3, fun _ _ => 9⟩ ⟨1, 1, fun _ _ => 7⟩ (1, 1) 1 1
     (by decide) (by decide) (by decide) (by decide) (by decide) (by decide)⟩
